import Mathlib

set_option linter.unusedVariables false

/-!
Shallow embedding of the query-compilation core of `VeriDID/acapy`:

* `src/acapy_agent/database_manager/wql_nosql/tags.py` — the `TagQuery` AST,
  its canonical WQL serialization (`to_wql_dict` / `to_wql_str`), the abstract
  `TagQueryEncoder` traversal (`encode_query` and friends) and the legacy
  adapter `query_to_tagquery`.
* `src/acapy_agent/database_manager/key.py` — the inert `Key` placeholder.

Modelling conventions:

* Python `TagQuery` stores a free-form `variant : str` together with an
  untyped `data` payload.  We fuse the variant string with the payload shape
  into one inductive (`TagQuery.ofPair` for `(name, value)` payloads,
  `ofValues` for `(name, values)`, `ofNames` for a list of names, `ofSub`
  for a single subquery, `ofSubs` for a list of subqueries).  The variant
  string stays free-form, so nodes outside the closed variant set are
  representable, as in Python.
* Python dispatches on `query.variant` alone and then unpacks the payload;
  when the payload shape does not fit the variant, CPython fails with a
  dynamic `TypeError`/`AttributeError` (never the `ValueError` fault).  We
  model every such shape failure as the distinguished error
  `TagsError.payloadMismatch`, and the `ValueError` branches of the source as
  `TagsError.valueError` with the source's message.
* The abstract encoder's `bytes`/clause outputs: encoded names and values get
  an arbitrary type `B`; clauses are Python `str`, modelled as `String`
  (Python truthiness of a clause is "non-empty string").  Each primitive
  invocation is recorded in a call trace (`EncCall`) so that call sequences
  of different encodings can be compared.
* Python raising is modelled with `Except`; `None` results with `Option`.
-/

/-- `TagName` from tags.py: a string wrapper compared by value. -/
structure TagName where
  value : String
deriving DecidableEq, Repr

/-- `TagName.to_string` from tags.py. -/
def TagName.to_string (n : TagName) : String := n.value

/-- `CompareOp` from tags.py (enum members, without the SQL helpers the
claims do not touch). -/
inductive CompareOp where
  | Eq | Neq | Gt | Gte | Lt | Lte | Like
deriving DecidableEq, Repr

/-- `CompareOp.as_sql_str`: the enum value strings. -/
def CompareOp.as_sql_str : CompareOp → String
  | .Eq => "="
  | .Neq => "!="
  | .Gt => ">"
  | .Gte => ">="
  | .Lt => "<"
  | .Lte => "<="
  | .Like => "LIKE"

/-- `ConjunctionOp` from tags.py. -/
inductive ConjunctionOp where
  | And | Or
deriving DecidableEq, Repr

/-- `ConjunctionOp.as_sql_str`: the enum value strings. -/
def ConjunctionOp.as_sql_str : ConjunctionOp → String
  | .And => " AND "
  | .Or => " OR "

/-- `ConjunctionOp.negate` from tags.py: swaps And and Or. -/
def ConjunctionOp.negate : ConjunctionOp → ConjunctionOp
  | .And => .Or
  | .Or => .And

/-- The `TagQuery` class of tags.py: a free-form variant string plus one of
the five payload shapes the factories use. -/
inductive TagQuery where
  | ofPair (variant : String) (name : TagName) (value : String)
  | ofValues (variant : String) (name : TagName) (values : List String)
  | ofNames (variant : String) (names : List TagName)
  | ofSub (variant : String) (subquery : TagQuery)
  | ofSubs (variant : String) (subqueries : List TagQuery)

/-- The `variant` attribute of a `TagQuery`. -/
def TagQuery.variant : TagQuery → String
  | .ofPair v _ _ => v
  | .ofValues v _ _ => v
  | .ofNames v _ => v
  | .ofSub v _ => v
  | .ofSubs v _ => v

/-- Factory `TagQuery.Eq`. -/
def TagQuery.Eq (name : TagName) (value : String) : TagQuery := .ofPair "Eq" name value

/-- Factory `TagQuery.Neq`. -/
def TagQuery.Neq (name : TagName) (value : String) : TagQuery := .ofPair "Neq" name value

/-- Factory `TagQuery.Gt`. -/
def TagQuery.Gt (name : TagName) (value : String) : TagQuery := .ofPair "Gt" name value

/-- Factory `TagQuery.Gte`. -/
def TagQuery.Gte (name : TagName) (value : String) : TagQuery := .ofPair "Gte" name value

/-- Factory `TagQuery.Lt`. -/
def TagQuery.Lt (name : TagName) (value : String) : TagQuery := .ofPair "Lt" name value

/-- Factory `TagQuery.Lte`. -/
def TagQuery.Lte (name : TagName) (value : String) : TagQuery := .ofPair "Lte" name value

/-- Factory `TagQuery.Like`. -/
def TagQuery.Like (name : TagName) (value : String) : TagQuery := .ofPair "Like" name value

/-- Factory `TagQuery.In`. -/
def TagQuery.In (name : TagName) (values : List String) : TagQuery := .ofValues "In" name values

/-- Factory `TagQuery.Exist`. -/
def TagQuery.Exist (names : List TagName) : TagQuery := .ofNames "Exist" names

/-- Factory `TagQuery.And`. -/
def TagQuery.And (subqueries : List TagQuery) : TagQuery := .ofSubs "And" subqueries

/-- Factory `TagQuery.Or`. -/
def TagQuery.Or (subqueries : List TagQuery) : TagQuery := .ofSubs "Or" subqueries

/-- Factory `TagQuery.Not`. -/
def TagQuery.Not (subquery : TagQuery) : TagQuery := .ofSub "Not" subquery

/-- Faults of the tags.py operations: `valueError` models the `ValueError`
raised on an unknown variant (with the source's message); `payloadMismatch`
models the dynamic failure when a variant's payload has the wrong shape. -/
inductive TagsError where
  | valueError (msg : String)
  | payloadMismatch
deriving DecidableEq, Repr

/-- The closed variant set of tags.py's dispatchers. -/
def closedVariants : List String :=
  ["Eq", "Neq", "Gt", "Gte", "Lt", "Lte", "Like", "In", "Exist", "And", "Or", "Not"]

/-- Values of the WQL canonical mapping: Python dicts (insertion-ordered
association lists), lists and strings, as produced by `to_wql_dict`. -/
inductive WqlVal where
  | str (s : String)
  | arr (items : List WqlVal)
  | obj (fields : List (String × WqlVal))

mutual

/-- `TagQuery.to_wql_dict` from tags.py: the canonical nested-mapping
serialization, dispatching on the variant string with a `ValueError` fallback. -/
def TagQuery.to_wql_dict : TagQuery → Except TagsError WqlVal
  | .ofPair "Eq" name value => .ok (.obj [(name.to_string, .str value)])
  | .ofPair "Neq" name value => .ok (.obj [(name.to_string, .obj [("$neq", .str value)])])
  | .ofPair "Gt" name value => .ok (.obj [(name.to_string, .obj [("$gt", .str value)])])
  | .ofPair "Gte" name value => .ok (.obj [(name.to_string, .obj [("$gte", .str value)])])
  | .ofPair "Lt" name value => .ok (.obj [(name.to_string, .obj [("$lt", .str value)])])
  | .ofPair "Lte" name value => .ok (.obj [(name.to_string, .obj [("$lte", .str value)])])
  | .ofPair "Like" name value => .ok (.obj [(name.to_string, .obj [("$like", .str value)])])
  | .ofValues "In" name values =>
      .ok (.obj [(name.to_string, .obj [("$in", .arr (values.map WqlVal.str))])])
  | .ofNames "Exist" names =>
      .ok (.obj [("$exist", .arr (names.map (fun n => WqlVal.str n.to_string)))])
  | .ofSubs "And" subqueries =>
      if subqueries.isEmpty then .ok (.obj [])
      else
        match TagQuery.to_wql_list subqueries with
        | .error e => .error e
        | .ok ws => .ok (.obj [("$and", .arr ws)])
  | .ofSubs "Or" subqueries =>
      if subqueries.isEmpty then .ok (.obj [])
      else
        match TagQuery.to_wql_list subqueries with
        | .error e => .error e
        | .ok ws => .ok (.obj [("$or", .arr ws)])
  | .ofSub "Not" subquery =>
      match subquery.to_wql_dict with
      | .error e => .error e
      | .ok w => .ok (.obj [("$not", w)])
  | q =>
      if q.variant ∈ closedVariants then .error .payloadMismatch
      else .error (.valueError ("Unknown query variant: " ++ q.variant))
termination_by q => (sizeOf q, 1)

/-- The list comprehension `[sq.to_wql_dict() for sq in subqueries]` of
tags.py, with Python's exception propagation. -/
def TagQuery.to_wql_list : List TagQuery → Except TagsError (List WqlVal)
  | [] => .ok []
  | q :: rest =>
      match q.to_wql_dict with
      | .error e => .error e
      | .ok w =>
          match TagQuery.to_wql_list rest with
          | .error e => .error e
          | .ok ws => .ok (w :: ws)
termination_by qs => (sizeOf qs, 0)

end

/-- Lowercase hexadecimal digit, as used by `json.dumps` escapes. -/
def hexDigit (n : Nat) : Char :=
  if n < 10 then Char.ofNat ('0'.toNat + n) else Char.ofNat ('a'.toNat + (n - 10))

/-- Four-digit lowercase hexadecimal rendering for a `\uXXXX` escape. -/
def hex4 (n : Nat) : String :=
  ⟨[hexDigit (n / 4096 % 16), hexDigit (n / 256 % 16), hexDigit (n / 16 % 16), hexDigit (n % 16)]⟩

/-- Escaping of one character inside a JSON string literal, following
`json.dumps` with its default `ensure_ascii=True`. -/
def jsonEscapeChar (c : Char) : String :=
  if c = '"' then "\\\""
  else if c = '\\' then "\\\\"
  else if c = '\n' then "\\n"
  else if c = '\r' then "\\r"
  else if c = '\t' then "\\t"
  else if c = '\x08' then "\\b"
  else if c = '\x0c' then "\\f"
  else if c.toNat < 0x20 then "\\u" ++ hex4 c.toNat
  else if c.toNat < 0x7f then String.singleton c
  else if c.toNat < 0x10000 then "\\u" ++ hex4 c.toNat
  else
    let v := c.toNat - 0x10000
    "\\u" ++ hex4 (0xd800 + v / 0x400) ++ "\\u" ++ hex4 (0xdc00 + v % 0x400)

/-- JSON string literal for `s`, as `json.dumps` renders strings. -/
def jsonQuote (s : String) : String :=
  "\"" ++ String.join (s.data.map jsonEscapeChar) ++ "\""

mutual

/-- `json.dumps` with default separators, restricted to the value shapes
`to_wql_dict` produces. -/
def WqlVal.dumps : WqlVal → String
  | .str s => jsonQuote s
  | .arr items => "[" ++ String.intercalate ", " (WqlVal.dumpsList items) ++ "]"
  | .obj fields => "\x7b" ++ String.intercalate ", " (WqlVal.dumpsFields fields) ++ "\x7d"

/-- Renders each array element. -/
def WqlVal.dumpsList : List WqlVal → List String
  | [] => []
  | v :: rest => v.dumps :: WqlVal.dumpsList rest

/-- Renders each `key: value` member of an object. -/
def WqlVal.dumpsFields : List (String × WqlVal) → List String
  | [] => []
  | (k, v) :: rest => (jsonQuote k ++ ": " ++ v.dumps) :: WqlVal.dumpsFields rest

end

/-- `TagQuery.to_wql_str` from tags.py: `json.dumps(self.to_wql_dict())`. -/
def TagQuery.to_wql_str (q : TagQuery) : Except TagsError String :=
  (q.to_wql_dict).map WqlVal.dumps

/-- Modelled from the spec: the legacy query AST of `query.py`, which is not
included under src/.  The adapter `query_to_tagquery` (which is in src/) only
reads each node's discriminant and its `key`/`value`/`values`/`keys`/
`subqueries`/`subquery` fields, exactly the closed node set the spec lists
(conjunction, negation, each comparison, membership, existence). -/
inductive Query where
  | andQ (subqueries : List Query)
  | orQ (subqueries : List Query)
  | notQ (subquery : Query)
  | eqQ (key : String) (value : String)
  | neqQ (key : String) (value : String)
  | gtQ (key : String) (value : String)
  | gteQ (key : String) (value : String)
  | ltQ (key : String) (value : String)
  | lteQ (key : String) (value : String)
  | likeQ (key : String) (value : String)
  | inQ (key : String) (values : List String)
  | existQ (keys : List String)

/-- Python `key.lstrip("~")`: removes every leading `~` character (the
character-list form keeps this kernel-computable). -/
def lstripTilde (s : String) : String := ⟨s.data.dropWhile (· = '~')⟩

mutual

/-- `query_to_tagquery` from tags.py: structural conversion of the legacy
query AST, stripping leading `~` markers from keys with `lstrip("~")`. -/
def query_to_tagquery : Query → TagQuery
  | .andQ subqueries => TagQuery.And (query_to_tagquery_list subqueries)
  | .orQ subqueries => TagQuery.Or (query_to_tagquery_list subqueries)
  | .notQ subquery => TagQuery.Not (query_to_tagquery subquery)
  | .eqQ key value => TagQuery.Eq ⟨lstripTilde key⟩ value
  | .neqQ key value => TagQuery.Neq ⟨lstripTilde key⟩ value
  | .gtQ key value => TagQuery.Gt ⟨lstripTilde key⟩ value
  | .gteQ key value => TagQuery.Gte ⟨lstripTilde key⟩ value
  | .ltQ key value => TagQuery.Lt ⟨lstripTilde key⟩ value
  | .lteQ key value => TagQuery.Lte ⟨lstripTilde key⟩ value
  | .likeQ key value => TagQuery.Like ⟨lstripTilde key⟩ value
  | .inQ key values => TagQuery.In ⟨lstripTilde key⟩ values
  | .existQ keys => TagQuery.Exist (keys.map (fun k => ⟨lstripTilde k⟩))

/-- The list comprehension over legacy subqueries. -/
def query_to_tagquery_list : List Query → List TagQuery
  | [] => []
  | q :: rest => query_to_tagquery q :: query_to_tagquery_list rest

end

/-- Python `bytes`, modelled as a list of byte values. -/
def PyBytes : Type := List Nat

/-- Byte string literal built from ASCII text, for the `b"..."` constants of
key.py. -/
def asciiBytes (s : String) : PyBytes := s.data.map Char.toNat

/-- Modelled from the spec: `KeyAlg` of `db_types.py` is not under src/; only
its `A128GCM` member is referenced by key.py.  A second free-form member keeps
the type non-trivial. -/
inductive KeyAlg where
  | A128GCM
  | otherAlg (name : String)
deriving DecidableEq, Repr

/-- Modelled from the spec: `SeedMethod` of `db_types.py` is not under src/;
key.py only passes it through. -/
inductive SeedMethod where
  | ofName (name : String)
deriving DecidableEq, Repr

/-- Python `Union[str, KeyAlg]`. -/
def StrOrAlg : Type := Sum String KeyAlg

/-- Python `Union[str, bytes]`. -/
def StrOrBytes : Type := Sum String PyBytes

/-- Python `Union[str, SeedMethod]`. -/
def StrOrSeedMethod : Type := Sum String SeedMethod

/-- Python `Union[dict, str, bytes]` for a JWK argument. -/
inductive PyJwk where
  | ofDict (fields : List (String × String))
  | ofStr (s : String)
  | ofBytes (b : PyBytes)

/-- The exception kinds raised by key.py. -/
inductive PyError where
  | notImplementedError (msg : String)
deriving DecidableEq, Repr

/-- The `Key` class of key.py: wraps a handle.  Python's `Any` handle is a
type parameter. -/
structure Key (H : Type) where
  handle : H

/-- `Key.generate`: raises. -/
def Key.generate (alg : StrOrAlg) (ephemeral : Bool) : Except PyError (Key String) :=
  .error (.notImplementedError "Key generation is not available without bindings.")

/-- `Key.from_seed`: raises. -/
def Key.from_seed (alg : StrOrAlg) (seed : StrOrBytes)
    (method : Option StrOrSeedMethod) : Except PyError (Key String) :=
  .error (.notImplementedError "Key creation from seed is not available without bindings.")

/-- `Key.from_secret_bytes`: raises. -/
def Key.from_secret_bytes (alg : StrOrAlg) (secret : PyBytes) : Except PyError (Key String) :=
  .error (.notImplementedError "Key creation from secret bytes is not available without bindings.")

/-- `Key.from_public_bytes`: raises. -/
def Key.from_public_bytes (alg : StrOrAlg) (public : PyBytes) : Except PyError (Key String) :=
  .error (.notImplementedError "Key creation from public bytes is not available without bindings.")

/-- `Key.from_jwk`: raises. -/
def Key.from_jwk (jwk : PyJwk) : Except PyError (Key String) :=
  .error (.notImplementedError "Key creation from JWK is not available without bindings.")

/-- The `algorithm` property: placeholder `KeyAlg.A128GCM`. -/
def Key.algorithm {H : Type} (k : Key H) : Except PyError KeyAlg := .ok KeyAlg.A128GCM

/-- The `ephemeral` property: placeholder `False`. -/
def Key.ephemeral {H : Type} (k : Key H) : Except PyError Bool := .ok false

/-- `Key.convert_key`: raises. -/
def Key.convert_key {H : Type} (k : Key H) (alg : StrOrAlg) : Except PyError (Key String) :=
  .error (.notImplementedError "Key conversion is not available without bindings.")

/-- `Key.key_exchange`: raises. -/
def Key.key_exchange {H H2 : Type} (k : Key H) (alg : StrOrAlg) (pk : Key H2) :
    Except PyError (Key String) :=
  .error (.notImplementedError "Key exchange is not available without bindings.")

/-- `Key.get_public_bytes`: placeholder bytes. -/
def Key.get_public_bytes {H : Type} (k : Key H) : Except PyError PyBytes :=
  .ok (asciiBytes "public_bytes_placeholder")

/-- `Key.get_secret_bytes`: placeholder bytes. -/
def Key.get_secret_bytes {H : Type} (k : Key H) : Except PyError PyBytes :=
  .ok (asciiBytes "secret_bytes_placeholder")

/-- `Key.get_jwk_public`: placeholder string. -/
def Key.get_jwk_public {H : Type} (k : Key H) (alg : Option StrOrAlg) :
    Except PyError String :=
  .ok "jwk_public_placeholder"

/-- `Key.get_jwk_secret`: placeholder bytes. -/
def Key.get_jwk_secret {H : Type} (k : Key H) : Except PyError PyBytes :=
  .ok (asciiBytes "jwk_secret_placeholder")

/-- `Key.get_jwk_thumbprint`: placeholder string. -/
def Key.get_jwk_thumbprint {H : Type} (k : Key H) (alg : Option StrOrAlg) :
    Except PyError String :=
  .ok "jwk_thumbprint_placeholder"

/-- `Key.aead_params`: placeholder string. -/
def Key.aead_params {H : Type} (k : Key H) : Except PyError String :=
  .ok "AeadParams placeholder"

/-- `Key.aead_random_nonce`: placeholder bytes. -/
def Key.aead_random_nonce {H : Type} (k : Key H) : Except PyError PyBytes :=
  .ok (asciiBytes "nonce_placeholder")

/-- `Key.aead_encrypt`: placeholder string, no encryption performed. -/
def Key.aead_encrypt {H : Type} (k : Key H) (message : StrOrBytes)
    (nonce : Option PyBytes) (aad : Option PyBytes) : Except PyError String :=
  .ok "Encrypted placeholder"

/-- `Key.aead_decrypt`: placeholder bytes. -/
def Key.aead_decrypt {H : Type} (k : Key H) (ciphertext : PyBytes) (nonce : PyBytes)
    (tag : Option PyBytes) (aad : Option PyBytes) : Except PyError PyBytes :=
  .ok (asciiBytes "decrypted placeholder")

/-- `Key.sign_message`: raises. -/
def Key.sign_message {H : Type} (k : Key H) (message : StrOrBytes)
    (sig_type : Option String) : Except PyError PyBytes :=
  .error (.notImplementedError "Message signing is not available without bindings.")

/-- `Key.verify_signature`: raises. -/
def Key.verify_signature {H : Type} (k : Key H) (message : StrOrBytes) (signature : PyBytes)
    (sig_type : Option String) : Except PyError Bool :=
  .error (.notImplementedError "Signature verification is not available without bindings.")

/-- `Key.wrap_key`: placeholder string. -/
def Key.wrap_key {H H2 : Type} (k : Key H) (other : Key H2) (nonce : Option PyBytes) :
    Except PyError String :=
  .ok "Encrypted placeholder"

/-- `Key.unwrap_key`: placeholder `Key` instance. -/
def Key.unwrap_key {H : Type} (k : Key H) (alg : StrOrAlg) (ciphertext : PyBytes)
    (nonce : Option PyBytes) (tag : Option PyBytes) :
    Except PyError (Key String) :=
  .ok { handle := "placeholder handle" }

/-- The abstract encoder contract of tags.py: the six primitives a concrete
backend implements.  Encoded names and values have the backend's type `B`
(Python `bytes`); clauses are Python `str`. -/
structure TagQueryEncoder (B : Type) where
  encode_name : TagName → B
  encode_value : String → B
  encode_op_clause : CompareOp → B → B → Bool → String
  encode_in_clause : B → List B → Bool → String
  encode_exist_clause : B → Bool → String
  encode_conj_clause : ConjunctionOp → List String → String

/-- One recorded invocation of an encoder primitive, with its arguments; the
traversal's output below pairs the produced clause with the ordered list of
these calls. -/
inductive EncCall (B : Type) where
  | name (n : TagName)
  | value (v : String)
  | op_clause (op : CompareOp) (enc_name : B) (enc_value : B) (negate : Bool)
  | in_clause (enc_name : B) (enc_values : List B) (negate : Bool)
  | exist_clause (enc_name : B) (negate : Bool)
  | conj_clause (op : ConjunctionOp) (clauses : List String)

variable {B : Type}

/-- `TagQueryEncoder.encode_op` from tags.py: one name encoding, one value
encoding, then the comparison clause primitive. -/
def TagQueryEncoder.encode_op (E : TagQueryEncoder B) (op : CompareOp) (name : TagName)
    (value : String) (negate : Bool) : List (EncCall B) × String :=
  let enc_name := E.encode_name name
  let enc_value := E.encode_value value
  ([.name name, .value value, .op_clause op enc_name enc_value negate],
   E.encode_op_clause op enc_name enc_value negate)

/-- `TagQueryEncoder.encode_in` from tags.py: one name encoding, one value
encoding per element in order, then the membership clause primitive. -/
def TagQueryEncoder.encode_in (E : TagQueryEncoder B) (name : TagName)
    (values : List String) (negate : Bool) : List (EncCall B) × String :=
  let enc_name := E.encode_name name
  let enc_values := values.map E.encode_value
  ([EncCall.name name] ++ values.map (fun v => EncCall.value v)
     ++ [.in_clause enc_name enc_values negate],
   E.encode_in_clause enc_name enc_values negate)

/-- `TagQueryEncoder.encode_exist` from tags.py: `None` for no names, a single
existence clause for one name, and for several names one singleton encoding
per name combined by an And conjunction of the truthy (non-empty) clauses. -/
def TagQueryEncoder.encode_exist (E : TagQueryEncoder B) :
    List TagName → Bool → List (EncCall B) × Option String
  | [], _ => ([], none)
  | [n], negate =>
      let enc_name := E.encode_name n
      ([.name n, .exist_clause enc_name negate], some (E.encode_exist_clause enc_name negate))
  | n1 :: n2 :: rest, negate =>
      let results := (n1 :: n2 :: rest).map (fun n => E.encode_exist [n] negate)
      let surviving := (results.map Prod.snd).filterMap (fun c =>
        match c with
        | some s => if s = "" then none else some s
        | none => none)
      ((results.map Prod.fst).flatten ++ [.conj_clause .And surviving],
       some (E.encode_conj_clause .And surviving))
termination_by ns _ => ns.length

mutual

/-- `TagQueryEncoder.encode_query` from tags.py: dispatch on the variant,
recording every primitive call.  Python dispatches on the variant string and
unpacks the payload inside each branch; a payload whose shape does not fit
its variant fails dynamically, modelled by the catch-all's `payloadMismatch`,
while an unknown variant raises `ValueError("Unknown query variant")`. -/
def TagQueryEncoder.encode_query (E : TagQueryEncoder B) (query : TagQuery) (negate : Bool) :
    Except TagsError (List (EncCall B) × Option String) :=
  match query with
  | .ofPair "Eq" n v => let r := E.encode_op .Eq n v negate; .ok (r.1, some r.2)
  | .ofPair "Neq" n v => let r := E.encode_op .Neq n v negate; .ok (r.1, some r.2)
  | .ofPair "Gt" n v => let r := E.encode_op .Gt n v negate; .ok (r.1, some r.2)
  | .ofPair "Gte" n v => let r := E.encode_op .Gte n v negate; .ok (r.1, some r.2)
  | .ofPair "Lt" n v => let r := E.encode_op .Lt n v negate; .ok (r.1, some r.2)
  | .ofPair "Lte" n v => let r := E.encode_op .Lte n v negate; .ok (r.1, some r.2)
  | .ofPair "Like" n v => let r := E.encode_op .Like n v negate; .ok (r.1, some r.2)
  | .ofValues "In" n vs => let r := E.encode_in n vs negate; .ok (r.1, some r.2)
  | .ofNames "Exist" ns => .ok (E.encode_exist ns negate)
  | .ofSubs "And" qs => E.encode_conj .And qs negate
  | .ofSubs "Or" qs => E.encode_conj .Or qs negate
  | .ofSub "Not" sub => E.encode_query sub (!negate)
  | q =>
      if q.variant ∈ closedVariants then .error .payloadMismatch
      else .error (.valueError "Unknown query variant")
termination_by (sizeOf query, 2)

/-- `TagQueryEncoder.encode_conj` from tags.py: apply De Morgan to the
operator at this node when `negate` is set, encode every child with the
unchanged `negate`, drop `None` clauses, and always invoke the conjunction
primitive on the survivors. -/
def TagQueryEncoder.encode_conj (E : TagQueryEncoder B) (op : ConjunctionOp)
    (subqueries : List TagQuery) (negate : Bool) :
    Except TagsError (List (EncCall B) × Option String) :=
  let finalOp := if negate then op.negate else op
  match E.encode_clauses subqueries negate with
  | .error e => .error e
  | .ok (trace, clauses) =>
      .ok (trace ++ [.conj_clause finalOp clauses], some (E.encode_conj_clause finalOp clauses))
termination_by (sizeOf subqueries, 1)

/-- The child-encoding loop of `encode_conj`: encodes children left to right,
appending only the clauses that are not `None`. -/
def TagQueryEncoder.encode_clauses (E : TagQueryEncoder B) (subqueries : List TagQuery)
    (negate : Bool) : Except TagsError (List (EncCall B) × List String) :=
  match subqueries with
  | [] => .ok ([], [])
  | q :: rest =>
      match E.encode_query q negate with
      | .error e => .error e
      | .ok (t, c) =>
          match E.encode_clauses rest negate with
          | .error e => .error e
          | .ok (t2, cs) =>
              .ok (t ++ t2, match c with | none => cs | some s => s :: cs)
termination_by (sizeOf subqueries, 0)

end

/-- The per-child results of an And/Or node before the `None` filter: each
child's trace is paired with its optional clause. -/
def TagQueryEncoder.child_encodings (E : TagQueryEncoder B) (subqueries : List TagQuery)
    (negate : Bool) : Except TagsError (List (List (EncCall B) × Option String)) :=
  match subqueries with
  | [] => .ok []
  | q :: rest =>
      match E.encode_query q negate with
      | .error e => .error e
      | .ok r =>
          match TagQueryEncoder.child_encodings E rest negate with
          | .error e => .error e
          | .ok rs => .ok (r :: rs)

/-- The immediate subqueries of a node (empty for leaves). -/
def TagQuery.children : TagQuery → List TagQuery
  | .ofSub _ q => [q]
  | .ofSubs _ qs => qs
  | _ => []

/-- Trees obtainable from the documented factory functions of tags.py. -/
inductive FactoryBuilt : TagQuery → Prop where
  | eqF (n : TagName) (v : String) : FactoryBuilt (TagQuery.Eq n v)
  | neqF (n : TagName) (v : String) : FactoryBuilt (TagQuery.Neq n v)
  | gtF (n : TagName) (v : String) : FactoryBuilt (TagQuery.Gt n v)
  | gteF (n : TagName) (v : String) : FactoryBuilt (TagQuery.Gte n v)
  | ltF (n : TagName) (v : String) : FactoryBuilt (TagQuery.Lt n v)
  | lteF (n : TagName) (v : String) : FactoryBuilt (TagQuery.Lte n v)
  | likeF (n : TagName) (v : String) : FactoryBuilt (TagQuery.Like n v)
  | inF (n : TagName) (vs : List String) : FactoryBuilt (TagQuery.In n vs)
  | existF (ns : List TagName) : FactoryBuilt (TagQuery.Exist ns)
  | andF (qs : List TagQuery) (h : ∀ q ∈ qs, FactoryBuilt q) : FactoryBuilt (TagQuery.And qs)
  | orF (qs : List TagQuery) (h : ∀ q ∈ qs, FactoryBuilt q) : FactoryBuilt (TagQuery.Or qs)
  | notF (q : TagQuery) (h : FactoryBuilt q) : FactoryBuilt (TagQuery.Not q)

/-- Every node of the tree carries a variant tag inside the closed set
(payload shapes unconstrained). -/
inductive VariantsKnown : TagQuery → Prop where
  | mk (q : TagQuery) (hv : q.variant ∈ closedVariants)
      (hc : ∀ c ∈ q.children, VariantsKnown c) : VariantsKnown q

/-- Whether the payload shape fits the (closed-set) variant tag, as the
factories guarantee. -/
def shapeMatches : TagQuery → Bool
  | .ofPair v _ _ => v ∈ ["Eq", "Neq", "Gt", "Gte", "Lt", "Lte", "Like"]
  | .ofValues v _ _ => v == "In"
  | .ofNames v _ => v == "Exist"
  | .ofSub v _ => v == "Not"
  | .ofSubs v _ => v == "And" || v == "Or"

/-- Structural induction for `TagQuery` with member-wise hypotheses for
subquery lists. -/
def TagQuery.inductionOn {motive : TagQuery → Prop}
    (hPair : ∀ v n s, motive (.ofPair v n s))
    (hValues : ∀ v n vs, motive (.ofValues v n vs))
    (hNames : ∀ v ns, motive (.ofNames v ns))
    (hSub : ∀ v q, motive q → motive (.ofSub v q))
    (hSubs : ∀ v qs, (∀ q ∈ qs, motive q) → motive (.ofSubs v qs)) :
    ∀ q, motive q
  | .ofPair v n s => hPair v n s
  | .ofValues v n vs => hValues v n vs
  | .ofNames v ns => hNames v ns
  | .ofSub v q => hSub v q (TagQuery.inductionOn hPair hValues hNames hSub hSubs q)
  | .ofSubs v qs =>
      hSubs v qs (fun q hq =>
        have : sizeOf q < sizeOf (TagQuery.ofSubs v qs) := by
          have := List.sizeOf_lt_of_mem hq
          simp only [TagQuery.ofSubs.sizeOf_spec]
          omega
        TagQuery.inductionOn hPair hValues hNames hSub hSubs q)
termination_by q => sizeOf q

/-- Does a string start with the reserved `$` operator marker? -/
def startsWithDollar (s : String) : Bool := s.data.head? = some '$'

mutual

/-- Factory-shaped trees whose tag names avoid the reserved `$` prefix of the
canonical mapping's operator keys and whose And/Or nodes are non-empty: the
fragment on which the canonical serialization is injective. -/
def goodQuery : TagQuery → Bool
  | .ofPair v n _ =>
      (v == "Eq" || v == "Neq" || v == "Gt" || v == "Gte" || v == "Lt" || v == "Lte"
        || v == "Like") && !startsWithDollar n.value
  | .ofValues v n _ => v == "In" && !startsWithDollar n.value
  | .ofNames v _ => v == "Exist"
  | .ofSub v q => v == "Not" && goodQuery q
  | .ofSubs v qs => (v == "And" || v == "Or") && !qs.isEmpty && goodList qs
termination_by q => (sizeOf q, 1)

/-- Pointwise `goodQuery` over a subquery list. -/
def goodList : List TagQuery → Bool
  | [] => true
  | q :: rest => goodQuery q && goodList rest
termination_by qs => (sizeOf qs, 0)

end

/-- Decodes a list of JSON strings (inverse of `values.map WqlVal.str`). -/
def decodeStrings : List WqlVal → Option (List String)
  | [] => some []
  | .str s :: rest => (decodeStrings rest).map (s :: ·)
  | _ => none

/-- Decodes the value stored under a non-operator key of the canonical
mapping: either a bare Eq value or a single-operator object. -/
def decodeOpObj (k : String) (v : WqlVal) : Option TagQuery :=
  match v with
  | .str s => some (.ofPair "Eq" ⟨k⟩ s)
  | .obj [("$neq", .str s)] => some (.ofPair "Neq" ⟨k⟩ s)
  | .obj [("$gt", .str s)] => some (.ofPair "Gt" ⟨k⟩ s)
  | .obj [("$gte", .str s)] => some (.ofPair "Gte" ⟨k⟩ s)
  | .obj [("$lt", .str s)] => some (.ofPair "Lt" ⟨k⟩ s)
  | .obj [("$lte", .str s)] => some (.ofPair "Lte" ⟨k⟩ s)
  | .obj [("$like", .str s)] => some (.ofPair "Like" ⟨k⟩ s)
  | .obj [("$in", .arr vs)] => (decodeStrings vs).map (fun ss => .ofValues "In" ⟨k⟩ ss)
  | _ => none

mutual

/-- Partial inverse of the canonical serialization, used to certify
injectivity on the `goodQuery` fragment. -/
def decodeWql : WqlVal → Option TagQuery
  | .obj [("$and", .arr ws)] => (decodeWqlList ws).map (fun qs => .ofSubs "And" qs)
  | .obj [("$or", .arr ws)] => (decodeWqlList ws).map (fun qs => .ofSubs "Or" qs)
  | .obj [("$not", w)] => (decodeWql w).map (fun q => .ofSub "Not" q)
  | .obj [("$exist", .arr ws)] =>
      (decodeStrings ws).map (fun ss => .ofNames "Exist" (ss.map TagName.mk))
  | .obj [(k, v)] => decodeOpObj k v
  | _ => none
termination_by w => (sizeOf w, 1)

/-- Decodes each element of a serialized subquery list. -/
def decodeWqlList : List WqlVal → Option (List TagQuery)
  | [] => some []
  | w :: rest =>
      match decodeWql w with
      | none => none
      | some q => (decodeWqlList rest).map (q :: ·)
termination_by ws => (sizeOf ws, 0)

end

/-- A simple concrete encoder used to instantiate universally quantified
theorems: names and values encode to themselves, clauses render as SQL-ish
text. -/
def sampleEncoder : TagQueryEncoder String where
  encode_name n := n.value
  encode_value v := v
  encode_op_clause op en ev negate :=
    (if negate then "NOT(" else "(") ++ en ++ " " ++ op.as_sql_str ++ " " ++ ev ++ ")"
  encode_in_clause en evs negate :=
    (if negate then "NOT(" else "(") ++ en ++ " IN [" ++ String.intercalate ", " evs ++ "])"
  encode_exist_clause en negate :=
    (if negate then "NOT(EXIST " else "(EXIST ") ++ en ++ ")"
  encode_conj_clause op cs := "(" ++ String.intercalate op.as_sql_str cs ++ ")"

/-- A degenerate encoder whose clause primitives all return the empty string,
exercising the truthiness filter of the multi-name existence path. -/
def emptyClauseEncoder : TagQueryEncoder String where
  encode_name n := n.value
  encode_value v := v
  encode_op_clause _ _ _ _ := ""
  encode_in_clause _ _ _ := ""
  encode_exist_clause _ _ := ""
  encode_conj_clause _ _ := ""


section UnfoldingLemmas

variable (E : TagQueryEncoder B)

theorem encode_query_eq_node (n : TagName) (v : String) (negate : Bool) :
    E.encode_query (.ofPair "Eq" n v) negate =
      .ok ((E.encode_op .Eq n v negate).1, some (E.encode_op .Eq n v negate).2) := by
  rw [TagQueryEncoder.encode_query]

theorem encode_query_neq_node (n : TagName) (v : String) (negate : Bool) :
    E.encode_query (.ofPair "Neq" n v) negate =
      .ok ((E.encode_op .Neq n v negate).1, some (E.encode_op .Neq n v negate).2) := by
  rw [TagQueryEncoder.encode_query]

theorem encode_query_gt_node (n : TagName) (v : String) (negate : Bool) :
    E.encode_query (.ofPair "Gt" n v) negate =
      .ok ((E.encode_op .Gt n v negate).1, some (E.encode_op .Gt n v negate).2) := by
  rw [TagQueryEncoder.encode_query]

theorem encode_query_gte_node (n : TagName) (v : String) (negate : Bool) :
    E.encode_query (.ofPair "Gte" n v) negate =
      .ok ((E.encode_op .Gte n v negate).1, some (E.encode_op .Gte n v negate).2) := by
  rw [TagQueryEncoder.encode_query]

theorem encode_query_lt_node (n : TagName) (v : String) (negate : Bool) :
    E.encode_query (.ofPair "Lt" n v) negate =
      .ok ((E.encode_op .Lt n v negate).1, some (E.encode_op .Lt n v negate).2) := by
  rw [TagQueryEncoder.encode_query]

theorem encode_query_lte_node (n : TagName) (v : String) (negate : Bool) :
    E.encode_query (.ofPair "Lte" n v) negate =
      .ok ((E.encode_op .Lte n v negate).1, some (E.encode_op .Lte n v negate).2) := by
  rw [TagQueryEncoder.encode_query]

theorem encode_query_like_node (n : TagName) (v : String) (negate : Bool) :
    E.encode_query (.ofPair "Like" n v) negate =
      .ok ((E.encode_op .Like n v negate).1, some (E.encode_op .Like n v negate).2) := by
  rw [TagQueryEncoder.encode_query]

theorem encode_query_in_node (n : TagName) (vs : List String) (negate : Bool) :
    E.encode_query (.ofValues "In" n vs) negate =
      .ok ((E.encode_in n vs negate).1, some (E.encode_in n vs negate).2) := by
  rw [TagQueryEncoder.encode_query]

theorem encode_query_exist_node (ns : List TagName) (negate : Bool) :
    E.encode_query (.ofNames "Exist" ns) negate = .ok (E.encode_exist ns negate) := by
  rw [TagQueryEncoder.encode_query]

theorem encode_query_and_node (qs : List TagQuery) (negate : Bool) :
    E.encode_query (.ofSubs "And" qs) negate = E.encode_conj .And qs negate := by
  rw [TagQueryEncoder.encode_query]

theorem encode_query_or_node (qs : List TagQuery) (negate : Bool) :
    E.encode_query (.ofSubs "Or" qs) negate = E.encode_conj .Or qs negate := by
  rw [TagQueryEncoder.encode_query]

theorem encode_query_not_node (q : TagQuery) (negate : Bool) :
    E.encode_query (.ofSub "Not" q) negate = E.encode_query q (!negate) := by
  rw [TagQueryEncoder.encode_query]

theorem encode_query_unknown_variant (q : TagQuery) (negate : Bool)
    (h : q.variant ∉ closedVariants) :
    E.encode_query q negate = .error (.valueError "Unknown query variant") := by
  have h' := h
  simp only [closedVariants, List.mem_cons, List.not_mem_nil, or_false, not_or] at h'
  obtain ⟨h1, h2, h3, h4, h5, h6, h7, h8, h9, h10, h11, h12⟩ := h'
  rw [TagQueryEncoder.encode_query.eq_def]
  cases q with
  | ofPair v n s => simp_all [TagQuery.variant]
  | ofValues v n vs => simp_all [TagQuery.variant]
  | ofNames v ns => simp_all [TagQuery.variant]
  | ofSub v sub => simp_all [TagQuery.variant]
  | ofSubs v qs => simp_all [TagQuery.variant]

theorem encode_clauses_nil (negate : Bool) : E.encode_clauses [] negate = .ok ([], []) := by
  rw [TagQueryEncoder.encode_clauses]

theorem encode_clauses_cons (q : TagQuery) (rest : List TagQuery) (negate : Bool) :
    E.encode_clauses (q :: rest) negate =
      match E.encode_query q negate with
      | .error e => .error e
      | .ok (t, c) =>
          match E.encode_clauses rest negate with
          | .error e => .error e
          | .ok (t2, cs) =>
              .ok (t ++ t2, match c with | none => cs | some s => s :: cs) := by
  conv_lhs => rw [TagQueryEncoder.encode_clauses]

theorem encode_exist_nil (negate : Bool) : E.encode_exist [] negate = ([], none) := by
  rw [TagQueryEncoder.encode_exist]

theorem encode_exist_single (n : TagName) (negate : Bool) :
    E.encode_exist [n] negate =
      ([.name n, .exist_clause (E.encode_name n) negate],
       some (E.encode_exist_clause (E.encode_name n) negate)) := by
  rw [TagQueryEncoder.encode_exist]

theorem truthy_filter_aux (f : TagName → String) (ns : List TagName) :
    (ns.map (fun n => some (f n))).filterMap (fun c =>
        match c with
        | some s => if s = "" then none else some s
        | none => none) =
      (ns.map f).filter (fun s => !(s == "")) := by
  induction ns with
  | nil => rfl
  | cons n rest ih =>
      by_cases h : f n = "" <;>
        simp [List.filterMap_cons, List.filter_cons, h, ih]

theorem encode_exist_multi (n1 n2 : TagName) (rest : List TagName) (negate : Bool) :
    E.encode_exist (n1 :: n2 :: rest) negate =
      (((n1 :: n2 :: rest).map (fun n =>
          [EncCall.name n, .exist_clause (E.encode_name n) negate])).flatten
         ++ [.conj_clause .And
              (((n1 :: n2 :: rest).map
                  (fun n => E.encode_exist_clause (E.encode_name n) negate)).filter
                (fun s => !(s == "")))],
       some (E.encode_conj_clause .And
         (((n1 :: n2 :: rest).map
             (fun n => E.encode_exist_clause (E.encode_name n) negate)).filter
           (fun s => !(s == ""))))) := by
  rw [TagQueryEncoder.encode_exist]
  simp only [encode_exist_single, List.map_map, Function.comp_def]
  rw [truthy_filter_aux (fun n => E.encode_exist_clause (E.encode_name n) negate)]

end UnfoldingLemmas

section WqlUnfolding

theorem to_wql_eq_node (n : TagName) (v : String) :
    (TagQuery.ofPair "Eq" n v).to_wql_dict = .ok (.obj [(n.to_string, .str v)]) := by
  rw [TagQuery.to_wql_dict]

theorem to_wql_neq_node (n : TagName) (v : String) :
    (TagQuery.ofPair "Neq" n v).to_wql_dict =
      .ok (.obj [(n.to_string, .obj [("$neq", .str v)])]) := by
  rw [TagQuery.to_wql_dict]

theorem to_wql_gt_node (n : TagName) (v : String) :
    (TagQuery.ofPair "Gt" n v).to_wql_dict =
      .ok (.obj [(n.to_string, .obj [("$gt", .str v)])]) := by
  rw [TagQuery.to_wql_dict]

theorem to_wql_gte_node (n : TagName) (v : String) :
    (TagQuery.ofPair "Gte" n v).to_wql_dict =
      .ok (.obj [(n.to_string, .obj [("$gte", .str v)])]) := by
  rw [TagQuery.to_wql_dict]

theorem to_wql_lt_node (n : TagName) (v : String) :
    (TagQuery.ofPair "Lt" n v).to_wql_dict =
      .ok (.obj [(n.to_string, .obj [("$lt", .str v)])]) := by
  rw [TagQuery.to_wql_dict]

theorem to_wql_lte_node (n : TagName) (v : String) :
    (TagQuery.ofPair "Lte" n v).to_wql_dict =
      .ok (.obj [(n.to_string, .obj [("$lte", .str v)])]) := by
  rw [TagQuery.to_wql_dict]

theorem to_wql_like_node (n : TagName) (v : String) :
    (TagQuery.ofPair "Like" n v).to_wql_dict =
      .ok (.obj [(n.to_string, .obj [("$like", .str v)])]) := by
  rw [TagQuery.to_wql_dict]

theorem to_wql_in_node (n : TagName) (vs : List String) :
    (TagQuery.ofValues "In" n vs).to_wql_dict =
      .ok (.obj [(n.to_string, .obj [("$in", .arr (vs.map WqlVal.str))])]) := by
  rw [TagQuery.to_wql_dict]

theorem to_wql_exist_node (ns : List TagName) :
    (TagQuery.ofNames "Exist" ns).to_wql_dict =
      .ok (.obj [("$exist", .arr (ns.map (fun n => WqlVal.str n.to_string)))]) := by
  rw [TagQuery.to_wql_dict]

theorem to_wql_and_node (qs : List TagQuery) :
    (TagQuery.ofSubs "And" qs).to_wql_dict =
      (if qs.isEmpty then .ok (.obj [])
       else
         match TagQuery.to_wql_list qs with
         | .error e => .error e
         | .ok ws => .ok (.obj [("$and", .arr ws)])) := by
  conv_lhs => rw [TagQuery.to_wql_dict]

theorem to_wql_or_node (qs : List TagQuery) :
    (TagQuery.ofSubs "Or" qs).to_wql_dict =
      (if qs.isEmpty then .ok (.obj [])
       else
         match TagQuery.to_wql_list qs with
         | .error e => .error e
         | .ok ws => .ok (.obj [("$or", .arr ws)])) := by
  conv_lhs => rw [TagQuery.to_wql_dict]

theorem to_wql_not_node (q : TagQuery) :
    (TagQuery.ofSub "Not" q).to_wql_dict =
      (match q.to_wql_dict with
       | .error e => .error e
       | .ok w => .ok (.obj [("$not", w)])) := by
  conv_lhs => rw [TagQuery.to_wql_dict]

theorem to_wql_unknown_variant (q : TagQuery) (h : q.variant ∉ closedVariants) :
    q.to_wql_dict = .error (.valueError ("Unknown query variant: " ++ q.variant)) := by
  have h' := h
  simp only [closedVariants, List.mem_cons, List.not_mem_nil, or_false, not_or] at h'
  obtain ⟨h1, h2, h3, h4, h5, h6, h7, h8, h9, h10, h11, h12⟩ := h'
  rw [TagQuery.to_wql_dict.eq_def]
  cases q with
  | ofPair v n s => simp_all [TagQuery.variant]
  | ofValues v n vs => simp_all [TagQuery.variant]
  | ofNames v ns => simp_all [TagQuery.variant]
  | ofSub v sub => simp_all [TagQuery.variant]
  | ofSubs v qs => simp_all [TagQuery.variant]

theorem to_wql_list_nil : TagQuery.to_wql_list [] = .ok [] := by
  rw [TagQuery.to_wql_list]

theorem to_wql_list_cons (q : TagQuery) (rest : List TagQuery) :
    TagQuery.to_wql_list (q :: rest) =
      (match q.to_wql_dict with
       | .error e => .error e
       | .ok w =>
           match TagQuery.to_wql_list rest with
           | .error e => .error e
           | .ok ws => .ok (w :: ws)) := by
  conv_lhs => rw [TagQuery.to_wql_list]

end WqlUnfolding

/-- C1: for every encoder and all subqueries A and B, encoding
`Not(And([A, B]))` with `negate=false` performs exactly the same primitive
calls with the same arguments in the same order, and returns the same final
clause, as encoding `Or([Not(A), Not(B)])` with `negate=false`. -/
theorem claim_C1_de_morgan_equivalence :
    ∀ (B : Type) (E : TagQueryEncoder B) (A B' : TagQuery),
      E.encode_query (TagQuery.Not (TagQuery.And [A, B'])) false =
        E.encode_query (TagQuery.Or [TagQuery.Not A, TagQuery.Not B']) false := by
  intro B E A B'
  simp [TagQuery.Not, TagQuery.And, TagQuery.Or, encode_query_not_node,
        encode_query_and_node, encode_query_or_node, TagQueryEncoder.encode_conj,
        encode_clauses_cons, encode_clauses_nil, ConjunctionOp.negate]

/-- C2: every comparison variant encodes its name once, its value once, and
then requests its own `CompareOp` from `encode_op_clause` with the ambient
negate flag passed through unchanged (in particular Neq under `negate=true`
still requests `CompareOp.Neq` with `negate=true`). -/
theorem claim_C2_comparison_flag_unchanged :
    ∀ (B : Type) (E : TagQueryEncoder B) (n : TagName) (v : String) (negate : Bool),
      E.encode_query (TagQuery.Eq n v) negate =
        .ok ([.name n, .value v, .op_clause .Eq (E.encode_name n) (E.encode_value v) negate],
             some (E.encode_op_clause .Eq (E.encode_name n) (E.encode_value v) negate)) ∧
      E.encode_query (TagQuery.Neq n v) negate =
        .ok ([.name n, .value v, .op_clause .Neq (E.encode_name n) (E.encode_value v) negate],
             some (E.encode_op_clause .Neq (E.encode_name n) (E.encode_value v) negate)) ∧
      E.encode_query (TagQuery.Gt n v) negate =
        .ok ([.name n, .value v, .op_clause .Gt (E.encode_name n) (E.encode_value v) negate],
             some (E.encode_op_clause .Gt (E.encode_name n) (E.encode_value v) negate)) ∧
      E.encode_query (TagQuery.Gte n v) negate =
        .ok ([.name n, .value v, .op_clause .Gte (E.encode_name n) (E.encode_value v) negate],
             some (E.encode_op_clause .Gte (E.encode_name n) (E.encode_value v) negate)) ∧
      E.encode_query (TagQuery.Lt n v) negate =
        .ok ([.name n, .value v, .op_clause .Lt (E.encode_name n) (E.encode_value v) negate],
             some (E.encode_op_clause .Lt (E.encode_name n) (E.encode_value v) negate)) ∧
      E.encode_query (TagQuery.Lte n v) negate =
        .ok ([.name n, .value v, .op_clause .Lte (E.encode_name n) (E.encode_value v) negate],
             some (E.encode_op_clause .Lte (E.encode_name n) (E.encode_value v) negate)) ∧
      E.encode_query (TagQuery.Like n v) negate =
        .ok ([.name n, .value v, .op_clause .Like (E.encode_name n) (E.encode_value v) negate],
             some (E.encode_op_clause .Like (E.encode_name n) (E.encode_value v) negate)) := by
  intro B E n v negate
  refine ⟨?_, ?_, ?_, ?_, ?_, ?_, ?_⟩ <;>
    simp [TagQuery.Eq, TagQuery.Neq, TagQuery.Gt, TagQuery.Gte, TagQuery.Lt, TagQuery.Lte,
          TagQuery.Like, encode_query_eq_node, encode_query_neq_node, encode_query_gt_node,
          encode_query_gte_node, encode_query_lt_node, encode_query_lte_node,
          encode_query_like_node, TagQueryEncoder.encode_op]

/-- C6: an existence node with zero names yields the null clause with no
primitive calls; with one name a single `encode_exist_clause` on the encoded
name with the ambient negate; with several names one singleton encoding per
name (same negate) combined by `encode_conj_clause(ConjunctionOp.And, ...)`,
with And regardless of the outer polarity. -/
theorem claim_C6_exist_paths :
    ∀ (B : Type) (E : TagQueryEncoder B) (negate : Bool),
      (E.encode_query (TagQuery.Exist []) negate = .ok ([], none)) ∧
      (∀ n : TagName,
        E.encode_query (TagQuery.Exist [n]) negate =
          .ok ([.name n, .exist_clause (E.encode_name n) negate],
               some (E.encode_exist_clause (E.encode_name n) negate))) ∧
      (∀ (n1 n2 : TagName) (rest : List TagName),
        E.encode_query (TagQuery.Exist (n1 :: n2 :: rest)) negate =
          .ok (((n1 :: n2 :: rest).map (fun n =>
                  [EncCall.name n, .exist_clause (E.encode_name n) negate])).flatten
                 ++ [.conj_clause .And
                      (((n1 :: n2 :: rest).map
                          (fun n => E.encode_exist_clause (E.encode_name n) negate)).filter
                        (fun s => !(s == "")))],
               some (E.encode_conj_clause .And
                 (((n1 :: n2 :: rest).map
                     (fun n => E.encode_exist_clause (E.encode_name n) negate)).filter
                   (fun s => !(s == "")))))) := by
  intro B E negate
  refine ⟨?_, fun n => ?_, fun n1 n2 rest => ?_⟩ <;>
    simp [TagQuery.Exist, encode_query_exist_node, encode_exist_nil, encode_exist_single,
          encode_exist_multi]

/-- C9: helper — `encode_clauses` is the flattening of the per-child results
with only the `None` clauses removed. -/
theorem encode_clauses_of_child_encodings (E : TagQueryEncoder B) :
    ∀ (qs : List TagQuery) (negate : Bool) (rs : List (List (EncCall B) × Option String)),
      E.child_encodings qs negate = .ok rs →
      E.encode_clauses qs negate =
        .ok ((rs.map Prod.fst).flatten, (rs.map Prod.snd).reduceOption) := by
  intro qs
  induction qs with
  | nil =>
      intro negate rs h
      simp only [TagQueryEncoder.child_encodings] at h
      cases h
      simp [encode_clauses_nil, List.reduceOption]
  | cons q rest ih =>
      intro negate rs h
      simp only [TagQueryEncoder.child_encodings] at h
      cases hq : E.encode_query q negate with
      | error e => rw [hq] at h; cases h
      | ok r =>
          rw [hq] at h
          cases hrest : TagQueryEncoder.child_encodings E rest negate with
          | error e => rw [hrest] at h; cases h
          | ok rs' =>
              rw [hrest] at h
              cases h
              rw [encode_clauses_cons, hq, ih negate rs' hrest]
              cases r with
              | mk t c => cases c <;> simp [List.reduceOption]

/-- C9: in the multi-name existence path the conjunction receives only the
truthy per-name clauses (the empty string is dropped along with `None`),
whereas the And/Or child loop keeps every `some` clause — including the
empty string — and drops only `None`. -/
theorem claim_C9_exist_truthiness_filter :
    (∀ (B : Type) (E : TagQueryEncoder B) (n1 n2 : TagName) (rest : List TagName)
        (negate : Bool),
      (E.encode_exist (n1 :: n2 :: rest) negate).2 =
        some (E.encode_conj_clause .And
          (((n1 :: n2 :: rest).map
              (fun n => E.encode_exist_clause (E.encode_name n) negate)).filter
            (fun s => !(s == ""))))) ∧
    (∀ (B : Type) (E : TagQueryEncoder B) (q : TagQuery) (qs : List TagQuery) (negate : Bool)
        (t t2 : List (EncCall B)) (c : String) (cs : List String),
      E.encode_query q negate = .ok (t, some c) →
      E.encode_clauses qs negate = .ok (t2, cs) →
      E.encode_clauses (q :: qs) negate = .ok (t ++ t2, c :: cs)) ∧
    (∀ (B : Type) (E : TagQueryEncoder B) (q : TagQuery) (qs : List TagQuery) (negate : Bool)
        (t t2 : List (EncCall B)) (cs : List String),
      E.encode_query q negate = .ok (t, none) →
      E.encode_clauses qs negate = .ok (t2, cs) →
      E.encode_clauses (q :: qs) negate = .ok (t ++ t2, cs)) := by
  refine ⟨?_, ?_, ?_⟩
  · intro B E n1 n2 rest negate
    simp [encode_exist_multi]
  · intro B E q qs negate t t2 c cs h1 h2
    rw [encode_clauses_cons, h1, h2]
  · intro B E q qs negate t t2 cs h1 h2
    rw [encode_clauses_cons, h1, h2]

/-- C9 witness: with an encoder whose existence clauses are all empty strings,
the two-name existence conjunction receives an empty list (both clauses are
dropped by truthiness), while the And/Or loop keeps an empty-string
comparison clause. -/
theorem claim_C9_witness :
    (emptyClauseEncoder.encode_exist [⟨"a"⟩, ⟨"b"⟩] false).2 =
      some (emptyClauseEncoder.encode_conj_clause .And []) ∧
    emptyClauseEncoder.encode_clauses [TagQuery.Eq ⟨"a"⟩ "1"] false =
      .ok ([.name ⟨"a"⟩, .value "1", .op_clause .Eq "a" "1" false], [""]) := by
  constructor
  · have h := claim_C9_exist_truthiness_filter.1 String emptyClauseEncoder ⟨"a"⟩ ⟨"b"⟩ [] false
    simpa [emptyClauseEncoder] using h
  · have h1 : emptyClauseEncoder.encode_query (TagQuery.Eq ⟨"a"⟩ "1") false =
        .ok ([.name ⟨"a"⟩, .value "1", .op_clause .Eq "a" "1" false], some "") := by
      simp [TagQuery.Eq, encode_query_eq_node, TagQueryEncoder.encode_op, emptyClauseEncoder]
    have h2 := encode_clauses_nil (E := emptyClauseEncoder) false
    simpa using claim_C9_exist_truthiness_filter.2.1 String emptyClauseEncoder
      (TagQuery.Eq ⟨"a"⟩ "1") [] false _ [] "" [] h1 h2

/-- C5: `And([])` and `Or([])` always reach `encode_conj_clause` with an empty
clause list (with the De Morgan operator flip when negated); in general the
conjunction primitive is invoked on the children's clauses with exactly the
`None` results dropped. -/
theorem claim_C5_vacuous_conjunction :
    (∀ (B : Type) (E : TagQueryEncoder B) (negate : Bool),
      E.encode_query (TagQuery.And []) negate =
        .ok ([.conj_clause (if negate then ConjunctionOp.Or else ConjunctionOp.And) []],
             some (E.encode_conj_clause
               (if negate then ConjunctionOp.Or else ConjunctionOp.And) [])) ∧
      E.encode_query (TagQuery.Or []) negate =
        .ok ([.conj_clause (if negate then ConjunctionOp.And else ConjunctionOp.Or) []],
             some (E.encode_conj_clause
               (if negate then ConjunctionOp.And else ConjunctionOp.Or) []))) ∧
    (∀ (B : Type) (E : TagQueryEncoder B) (qs : List TagQuery) (negate : Bool)
        (rs : List (List (EncCall B) × Option String)),
      E.child_encodings qs negate = .ok rs →
      (E.encode_query (TagQuery.And qs) negate =
        .ok ((rs.map Prod.fst).flatten
               ++ [.conj_clause (if negate then ConjunctionOp.Or else ConjunctionOp.And)
                     ((rs.map Prod.snd).reduceOption)],
             some (E.encode_conj_clause
               (if negate then ConjunctionOp.Or else ConjunctionOp.And)
               ((rs.map Prod.snd).reduceOption)))) ∧
      (E.encode_query (TagQuery.Or qs) negate =
        .ok ((rs.map Prod.fst).flatten
               ++ [.conj_clause (if negate then ConjunctionOp.And else ConjunctionOp.Or)
                     ((rs.map Prod.snd).reduceOption)],
             some (E.encode_conj_clause
               (if negate then ConjunctionOp.And else ConjunctionOp.Or)
               ((rs.map Prod.snd).reduceOption))))) := by
  constructor
  · intro B E negate
    constructor
    · rw [TagQuery.And, encode_query_and_node, TagQueryEncoder.encode_conj,
          encode_clauses_nil]
      cases negate <;> simp [ConjunctionOp.negate]
    · rw [TagQuery.Or, encode_query_or_node, TagQueryEncoder.encode_conj,
          encode_clauses_nil]
      cases negate <;> simp [ConjunctionOp.negate]
  · intro B E qs negate rs h
    have hc := encode_clauses_of_child_encodings E qs negate rs h
    constructor
    · rw [TagQuery.And, encode_query_and_node, TagQueryEncoder.encode_conj, hc]
      cases negate <;> simp [ConjunctionOp.negate]
    · rw [TagQuery.Or, encode_query_or_node, TagQueryEncoder.encode_conj, hc]
      cases negate <;> simp [ConjunctionOp.negate]

/-- C5 witness: a null child (an empty existence node) is dropped and the
conjunction primitive still receives the (empty) surviving list. -/
theorem claim_C5_witness :
    sampleEncoder.child_encodings [TagQuery.Exist []] false = .ok [([], none)] ∧
    sampleEncoder.encode_query (TagQuery.And [TagQuery.Exist []]) false =
      .ok ([.conj_clause ConjunctionOp.And []],
           some (sampleEncoder.encode_conj_clause ConjunctionOp.And [])) := by
  have h : sampleEncoder.child_encodings [TagQuery.Exist []] false = .ok [([], none)] := by
    simp [TagQueryEncoder.child_encodings, TagQuery.Exist, encode_query_exist_node,
          encode_exist_nil]
  refine ⟨h, ?_⟩
  have := (claim_C5_vacuous_conjunction.2 String sampleEncoder [TagQuery.Exist []] false
    [([], none)] h).1
  simpa [List.reduceOption] using this

/-- C3 counterexample: Python's `lstrip("~")` removes every leading marker, so
the adapter maps the key `"~~name"` to `TagName("name")`, not to
`TagName("~name")` as the claim states. -/
theorem claim_C3_counterexample :
    query_to_tagquery (Query.eqQ "~~name" "v") = TagQuery.Eq ⟨"name"⟩ "v" ∧
    query_to_tagquery (Query.eqQ "~~name" "v") ≠ TagQuery.Eq ⟨"~name"⟩ "v" := by
  have h : query_to_tagquery (Query.eqQ "~~name" "v") = TagQuery.Eq ⟨lstripTilde "~~name"⟩ "v" := by
    rw [query_to_tagquery]
  have h2 : lstripTilde "~~name" = "name" := by decide
  refine ⟨by rw [h, h2], ?_⟩
  rw [h, h2]
  simp only [TagQuery.Eq, ne_eq, TagQuery.ofPair.injEq]
  intro hcontra
  exact absurd hcontra.2.1 (by decide)

/-- C3 amended: the adapter strips every leading `~` marker from each
attribute key (not exactly one) before wrapping it as a `TagName`, for every
comparison, membership and existence node; in particular `"~name"` and
`"~~name"` both become `"name"`, and `"name"` is unchanged. -/
theorem claim_C3_amended_strips_all_markers :
    (∀ k v, query_to_tagquery (Query.eqQ k v) = TagQuery.Eq ⟨lstripTilde k⟩ v) ∧
    (∀ k v, query_to_tagquery (Query.neqQ k v) = TagQuery.Neq ⟨lstripTilde k⟩ v) ∧
    (∀ k v, query_to_tagquery (Query.gtQ k v) = TagQuery.Gt ⟨lstripTilde k⟩ v) ∧
    (∀ k v, query_to_tagquery (Query.gteQ k v) = TagQuery.Gte ⟨lstripTilde k⟩ v) ∧
    (∀ k v, query_to_tagquery (Query.ltQ k v) = TagQuery.Lt ⟨lstripTilde k⟩ v) ∧
    (∀ k v, query_to_tagquery (Query.lteQ k v) = TagQuery.Lte ⟨lstripTilde k⟩ v) ∧
    (∀ k v, query_to_tagquery (Query.likeQ k v) = TagQuery.Like ⟨lstripTilde k⟩ v) ∧
    (∀ k vs, query_to_tagquery (Query.inQ k vs) = TagQuery.In ⟨lstripTilde k⟩ vs) ∧
    (∀ ks, query_to_tagquery (Query.existQ ks) =
      TagQuery.Exist (ks.map (fun k => ⟨lstripTilde k⟩))) ∧
    (∀ s, lstripTilde s = ⟨s.data.dropWhile (· = '~')⟩) ∧
    lstripTilde "name" = "name" ∧ lstripTilde "~name" = "name" ∧
    lstripTilde "~~name" = "name" := by
  refine ⟨?_, ?_, ?_, ?_, ?_, ?_, ?_, ?_, ?_, fun s => rfl, by decide, by decide, by decide⟩ <;>
    · intros
      rw [query_to_tagquery]

/-- C10: in key.py every key-construction classmethod and `convert_key`,
`key_exchange`, `sign_message`, `verify_signature` raise `NotImplementedError`
on every input, while `aead_encrypt`, `aead_decrypt`, `wrap_key`,
`unwrap_key`, `get_public_bytes`, `get_secret_bytes` and the JWK getters never
raise and return fixed placeholder constants independent of their arguments. -/
theorem claim_C10_key_placeholder_split :
    (∀ alg ephemeral, Key.generate alg ephemeral =
      .error (.notImplementedError "Key generation is not available without bindings.")) ∧
    (∀ alg seed method, Key.from_seed alg seed method =
      .error (.notImplementedError "Key creation from seed is not available without bindings.")) ∧
    (∀ alg secret, Key.from_secret_bytes alg secret =
      .error (.notImplementedError
        "Key creation from secret bytes is not available without bindings.")) ∧
    (∀ alg public, Key.from_public_bytes alg public =
      .error (.notImplementedError
        "Key creation from public bytes is not available without bindings.")) ∧
    (∀ jwk, Key.from_jwk jwk =
      .error (.notImplementedError "Key creation from JWK is not available without bindings.")) ∧
    (∀ (H : Type) (k : Key H) alg, k.convert_key alg =
      .error (.notImplementedError "Key conversion is not available without bindings.")) ∧
    (∀ (H H2 : Type) (k : Key H) alg (pk : Key H2), k.key_exchange alg pk =
      .error (.notImplementedError "Key exchange is not available without bindings.")) ∧
    (∀ (H : Type) (k : Key H) message sig_type, k.sign_message message sig_type =
      .error (.notImplementedError "Message signing is not available without bindings.")) ∧
    (∀ (H : Type) (k : Key H) message signature sig_type,
      k.verify_signature message signature sig_type =
        .error (.notImplementedError
          "Signature verification is not available without bindings.")) ∧
    (∀ (H : Type) (k : Key H) message nonce aad,
      k.aead_encrypt message nonce aad = .ok "Encrypted placeholder") ∧
    (∀ (H : Type) (k : Key H) ciphertext nonce tag aad,
      k.aead_decrypt ciphertext nonce tag aad = .ok (asciiBytes "decrypted placeholder")) ∧
    (∀ (H H2 : Type) (k : Key H) (other : Key H2) nonce,
      k.wrap_key other nonce = .ok "Encrypted placeholder") ∧
    (∀ (H : Type) (k : Key H) alg ciphertext nonce tag,
      k.unwrap_key alg ciphertext nonce tag = .ok { handle := "placeholder handle" }) ∧
    (∀ (H : Type) (k : Key H),
      k.get_public_bytes = .ok (asciiBytes "public_bytes_placeholder")) ∧
    (∀ (H : Type) (k : Key H),
      k.get_secret_bytes = .ok (asciiBytes "secret_bytes_placeholder")) ∧
    (∀ (H : Type) (k : Key H) alg, k.get_jwk_public alg = .ok "jwk_public_placeholder") ∧
    (∀ (H : Type) (k : Key H), k.get_jwk_secret = .ok (asciiBytes "jwk_secret_placeholder")) ∧
    (∀ (H : Type) (k : Key H) alg,
      k.get_jwk_thumbprint alg = .ok "jwk_thumbprint_placeholder") := by
  refine ⟨?_, ?_, ?_, ?_, ?_, ?_, ?_, ?_, ?_, ?_, ?_, ?_, ?_, ?_, ?_, ?_, ?_, ?_⟩ <;>
    · intros
      rfl

/-- C7: the tree `And([Eq(TagName("a"), "1"), Not(Exist([TagName("b")]))])`
serializes via `to_wql_str` to exactly the JSON text
`{"$and": [{"a": "1"}, {"$not": {"$exist": ["b"]}}]}`. -/
theorem claim_C7_scenario :
    (TagQuery.And [TagQuery.Eq ⟨"a"⟩ "1",
        TagQuery.Not (TagQuery.Exist [⟨"b"⟩])]).to_wql_str =
      .ok "\x7b\"$and\": [\x7b\"a\": \"1\"\x7d, \x7b\"$not\": \x7b\"$exist\": [\"b\"]\x7d\x7d]\x7d" := by
  rw [TagQuery.to_wql_str]
  have hdict : (TagQuery.And [TagQuery.Eq ⟨"a"⟩ "1",
      TagQuery.Not (TagQuery.Exist [⟨"b"⟩])]).to_wql_dict =
      .ok (.obj [("$and", .arr [.obj [("a", .str "1")],
        .obj [("$not", .obj [("$exist", .arr [.str "b"])])]])]) := by
    simp [TagQuery.And, TagQuery.Eq, TagQuery.Not, TagQuery.Exist, to_wql_and_node,
          to_wql_list_cons, to_wql_list_nil, to_wql_eq_node, to_wql_not_node,
          to_wql_exist_node, TagName.to_string]
  rw [hdict]
  have hdump : WqlVal.dumps (.obj [("$and", .arr [.obj [("a", .str "1")],
      .obj [("$not", .obj [("$exist", .arr [.str "b"])])]])]) =
      "\x7b\"$and\": [\x7b\"a\": \"1\"\x7d, \x7b\"$not\": \x7b\"$exist\": [\"b\"]\x7d\x7d]\x7d" := by
    simp [WqlVal.dumps, WqlVal.dumpsList, WqlVal.dumpsFields, jsonQuote, jsonEscapeChar,
          String.singleton]
    decide
  simp only [Except.map]
  rw [hdump]

/-- C8 helper: a variant inside the closed set whose payload shape does not
fit fails with the payload-mismatch fault, not the `ValueError`. -/
theorem encode_query_payload_mismatch (E : TagQueryEncoder B) (q : TagQuery) (negate : Bool)
    (hv : q.variant ∈ closedVariants) (hs : shapeMatches q = false) :
    E.encode_query q negate = .error .payloadMismatch := by
  cases q with
  | ofPair v n s =>
      simp only [TagQuery.variant, closedVariants, List.mem_cons, List.not_mem_nil,
        or_false] at hv
      rcases hv with rfl|rfl|rfl|rfl|rfl|rfl|rfl|rfl|rfl|rfl|rfl|rfl <;>
        simp_all [shapeMatches, TagQueryEncoder.encode_query, TagQuery.variant, closedVariants]
  | ofValues v n vs =>
      simp only [TagQuery.variant, closedVariants, List.mem_cons, List.not_mem_nil,
        or_false] at hv
      rcases hv with rfl|rfl|rfl|rfl|rfl|rfl|rfl|rfl|rfl|rfl|rfl|rfl <;>
        simp_all [shapeMatches, TagQueryEncoder.encode_query, TagQuery.variant, closedVariants]
  | ofNames v ns =>
      simp only [TagQuery.variant, closedVariants, List.mem_cons, List.not_mem_nil,
        or_false] at hv
      rcases hv with rfl|rfl|rfl|rfl|rfl|rfl|rfl|rfl|rfl|rfl|rfl|rfl <;>
        simp_all [shapeMatches, TagQueryEncoder.encode_query, TagQuery.variant, closedVariants]
  | ofSub v sub =>
      simp only [TagQuery.variant, closedVariants, List.mem_cons, List.not_mem_nil,
        or_false] at hv
      rcases hv with rfl|rfl|rfl|rfl|rfl|rfl|rfl|rfl|rfl|rfl|rfl|rfl <;>
        simp_all [shapeMatches, TagQueryEncoder.encode_query, TagQuery.variant, closedVariants]
  | ofSubs v qs =>
      simp only [TagQuery.variant, closedVariants, List.mem_cons, List.not_mem_nil,
        or_false] at hv
      rcases hv with rfl|rfl|rfl|rfl|rfl|rfl|rfl|rfl|rfl|rfl|rfl|rfl <;>
        simp_all [shapeMatches, TagQueryEncoder.encode_query, TagQuery.variant, closedVariants]

/-- C8 helper: serialization analogue of `encode_query_payload_mismatch`. -/
theorem to_wql_payload_mismatch (q : TagQuery)
    (hv : q.variant ∈ closedVariants) (hs : shapeMatches q = false) :
    q.to_wql_dict = .error .payloadMismatch := by
  cases q with
  | ofPair v n s =>
      simp only [TagQuery.variant, closedVariants, List.mem_cons, List.not_mem_nil,
        or_false] at hv
      rcases hv with rfl|rfl|rfl|rfl|rfl|rfl|rfl|rfl|rfl|rfl|rfl|rfl <;>
        simp_all [shapeMatches, TagQuery.to_wql_dict, TagQuery.variant, closedVariants]
  | ofValues v n vs =>
      simp only [TagQuery.variant, closedVariants, List.mem_cons, List.not_mem_nil,
        or_false] at hv
      rcases hv with rfl|rfl|rfl|rfl|rfl|rfl|rfl|rfl|rfl|rfl|rfl|rfl <;>
        simp_all [shapeMatches, TagQuery.to_wql_dict, TagQuery.variant, closedVariants]
  | ofNames v ns =>
      simp only [TagQuery.variant, closedVariants, List.mem_cons, List.not_mem_nil,
        or_false] at hv
      rcases hv with rfl|rfl|rfl|rfl|rfl|rfl|rfl|rfl|rfl|rfl|rfl|rfl <;>
        simp_all [shapeMatches, TagQuery.to_wql_dict, TagQuery.variant, closedVariants]
  | ofSub v sub =>
      simp only [TagQuery.variant, closedVariants, List.mem_cons, List.not_mem_nil,
        or_false] at hv
      rcases hv with rfl|rfl|rfl|rfl|rfl|rfl|rfl|rfl|rfl|rfl|rfl|rfl <;>
        simp_all [shapeMatches, TagQuery.to_wql_dict, TagQuery.variant, closedVariants]
  | ofSubs v qs =>
      simp only [TagQuery.variant, closedVariants, List.mem_cons, List.not_mem_nil,
        or_false] at hv
      rcases hv with rfl|rfl|rfl|rfl|rfl|rfl|rfl|rfl|rfl|rfl|rfl|rfl <;>
        simp_all [shapeMatches, TagQuery.to_wql_dict, TagQuery.variant, closedVariants]

/-- C8 helper: the child loop propagates but never invents the `ValueError`. -/
theorem encode_clauses_no_value_error (E : TagQueryEncoder B) (qs : List TagQuery)
    (negate : Bool)
    (h : ∀ q ∈ qs, ∀ m, E.encode_query q negate ≠ .error (.valueError m)) :
    ∀ m, E.encode_clauses qs negate ≠ .error (.valueError m) := by
  induction qs with
  | nil => intro m; rw [encode_clauses_nil]; simp
  | cons q rest ih =>
      intro m
      rw [encode_clauses_cons]
      cases hq : E.encode_query q negate with
      | error e =>
          cases e with
          | valueError m' => exact absurd hq (h q (by simp) m')
          | payloadMismatch => simp
      | ok r =>
          cases r with
          | mk t c =>
              cases hrest : E.encode_clauses rest negate with
              | error e =>
                  cases e with
                  | valueError m' =>
                      exact absurd hrest (ih (fun q' hq' m'' => h q' (by simp [hq']) m'') m')
                  | payloadMismatch => simp
              | ok p => simp

/-- C8 helper: serialization analogue of `encode_clauses_no_value_error`. -/
theorem to_wql_list_no_value_error (qs : List TagQuery)
    (h : ∀ q ∈ qs, ∀ m, q.to_wql_dict ≠ .error (.valueError m)) :
    ∀ m, TagQuery.to_wql_list qs ≠ .error (.valueError m) := by
  induction qs with
  | nil => intro m; rw [to_wql_list_nil]; simp
  | cons q rest ih =>
      intro m
      rw [to_wql_list_cons]
      cases hq : q.to_wql_dict with
      | error e =>
          cases e with
          | valueError m' => exact absurd hq (h q (by simp) m')
          | payloadMismatch => simp
      | ok w =>
          cases hrest : TagQuery.to_wql_list rest with
          | error e =>
              cases e with
              | valueError m' =>
                  exact absurd hrest (ih (fun q' hq' m'' => h q' (by simp [hq']) m'') m')
              | payloadMismatch => simp
          | ok ws => simp

/-- C8 helper: if every node's variant tag lies in the closed set, neither
operation can produce the unknown-variant `ValueError`. -/
theorem known_variants_no_value_error (q : TagQuery) (h : VariantsKnown q) :
    (∀ (B : Type) (E : TagQueryEncoder B) (negate : Bool) (m : String),
       E.encode_query q negate ≠ .error (.valueError m)) ∧
    (∀ m, q.to_wql_dict ≠ .error (.valueError m)) := by
  induction h with
  | mk q hv hc ih =>
      by_cases hs : shapeMatches q = true
      · cases q with
        | ofPair v n s =>
            simp only [shapeMatches, List.mem_cons, List.not_mem_nil, or_false,
              decide_eq_true_eq] at hs
            rcases hs with rfl|rfl|rfl|rfl|rfl|rfl|rfl
            all_goals
              exact ⟨fun B E negate m => by
                  simp [encode_query_eq_node, encode_query_neq_node, encode_query_gt_node,
                    encode_query_gte_node, encode_query_lt_node, encode_query_lte_node,
                    encode_query_like_node],
                fun m => by
                  simp [to_wql_eq_node, to_wql_neq_node, to_wql_gt_node, to_wql_gte_node,
                    to_wql_lt_node, to_wql_lte_node, to_wql_like_node]⟩
        | ofValues v n vs =>
            simp only [shapeMatches, beq_iff_eq] at hs
            subst hs
            exact ⟨fun B E negate m => by simp [encode_query_in_node],
              fun m => by simp [to_wql_in_node]⟩
        | ofNames v ns =>
            simp only [shapeMatches, beq_iff_eq] at hs
            subst hs
            exact ⟨fun B E negate m => by simp [encode_query_exist_node],
              fun m => by simp [to_wql_exist_node]⟩
        | ofSub v sub =>
            simp only [shapeMatches, beq_iff_eq] at hs
            subst hs
            have hsub := ih sub (by simp [TagQuery.children])
            constructor
            · intro B E negate m
              rw [encode_query_not_node]
              exact hsub.1 B E (!negate) m
            · intro m
              rw [to_wql_not_node]
              cases hw : sub.to_wql_dict with
              | error e =>
                  cases e with
                  | valueError m' => exact absurd hw (hsub.2 m')
                  | payloadMismatch => simp
              | ok w => simp
        | ofSubs v qs =>
            simp only [shapeMatches, Bool.or_eq_true, beq_iff_eq] at hs
            have hkids : ∀ c ∈ qs, VariantsKnown c := by
              intro c hcmem
              exact hc c (by simp [TagQuery.children, hcmem])
            have ihkids : ∀ c ∈ qs,
                (∀ (B : Type) (E : TagQueryEncoder B) (negate : Bool) (m : String),
                   E.encode_query c negate ≠ .error (.valueError m)) ∧
                (∀ m, c.to_wql_dict ≠ .error (.valueError m)) := by
              intro c hcmem
              exact ih c (by simp [TagQuery.children, hcmem])
            rcases hs with rfl | rfl
            · constructor
              · intro B E negate m
                rw [encode_query_and_node, TagQueryEncoder.encode_conj]
                have hnv := encode_clauses_no_value_error E qs negate
                  (fun q' hq' m' => (ihkids q' hq').1 B E negate m')
                cases hcl : E.encode_clauses qs negate with
                | error e =>
                    cases e with
                    | valueError m' => exact absurd hcl (hnv m')
                    | payloadMismatch => simp
                | ok p => cases p; simp
              · intro m
                rw [to_wql_and_node]
                by_cases hemp : qs.isEmpty
                · simp [hemp]
                · simp only [hemp, if_false]
                  have hnv := to_wql_list_no_value_error qs
                    (fun q' hq' m' => (ihkids q' hq').2 m')
                  cases hcl : TagQuery.to_wql_list qs with
                  | error e =>
                      cases e with
                      | valueError m' => exact absurd hcl (hnv m')
                      | payloadMismatch => simp
                  | ok ws => simp
            · constructor
              · intro B E negate m
                rw [encode_query_or_node, TagQueryEncoder.encode_conj]
                have hnv := encode_clauses_no_value_error E qs negate
                  (fun q' hq' m' => (ihkids q' hq').1 B E negate m')
                cases hcl : E.encode_clauses qs negate with
                | error e =>
                    cases e with
                    | valueError m' => exact absurd hcl (hnv m')
                    | payloadMismatch => simp
                | ok p => cases p; simp
              · intro m
                rw [to_wql_or_node]
                by_cases hemp : qs.isEmpty
                · simp [hemp]
                · simp only [hemp, if_false]
                  have hnv := to_wql_list_no_value_error qs
                    (fun q' hq' m' => (ihkids q' hq').2 m')
                  cases hcl : TagQuery.to_wql_list qs with
                  | error e =>
                      cases e with
                      | valueError m' => exact absurd hcl (hnv m')
                      | payloadMismatch => simp
                  | ok ws => simp
      · have hs' : shapeMatches q = false := by
          cases hval : shapeMatches q
          · rfl
          · exact absurd hval hs
        constructor
        · intro B E negate m
          rw [encode_query_payload_mismatch E q negate hv hs']
          simp
        · intro m
          rw [to_wql_payload_mismatch q hv hs']
          simp

/-- C8 helper: the child loop succeeds when every child encoding succeeds. -/
theorem encode_clauses_ok_of_children (E : TagQueryEncoder B) (qs : List TagQuery)
    (negate : Bool)
    (h : ∀ q ∈ qs, ∃ r, E.encode_query q negate = .ok r) :
    ∃ p, E.encode_clauses qs negate = .ok p := by
  induction qs with
  | nil => exact ⟨([], []), encode_clauses_nil E negate⟩
  | cons q rest ih =>
      obtain ⟨⟨t, c⟩, hq⟩ := h q (by simp)
      obtain ⟨⟨t2, cs⟩, hrest⟩ := ih (fun q' hq' => h q' (by simp [hq']))
      rw [encode_clauses_cons, hq, hrest]
      cases c <;> exact ⟨_, rfl⟩

/-- C8 helper: serialization analogue of `encode_clauses_ok_of_children`. -/
theorem to_wql_list_ok_of_children (qs : List TagQuery)
    (h : ∀ q ∈ qs, ∃ w, q.to_wql_dict = .ok w) :
    ∃ ws, TagQuery.to_wql_list qs = .ok ws := by
  induction qs with
  | nil => exact ⟨[], to_wql_list_nil⟩
  | cons q rest ih =>
      obtain ⟨w, hq⟩ := h q (by simp)
      obtain ⟨ws, hrest⟩ := ih (fun q' hq' => h q' (by simp [hq']))
      exact ⟨w :: ws, by rw [to_wql_list_cons, hq, hrest]⟩

/-- C8 helper: factory-built trees never fault at all. -/
theorem factory_built_ok (q : TagQuery) (h : FactoryBuilt q) :
    (∀ (B : Type) (E : TagQueryEncoder B) (negate : Bool),
       ∃ r, E.encode_query q negate = .ok r) ∧
    (∃ w, q.to_wql_dict = .ok w) := by
  induction h with
  | eqF n v =>
      exact ⟨fun B E negate => ⟨_, by rw [TagQuery.Eq, encode_query_eq_node]⟩,
        ⟨_, by rw [TagQuery.Eq, to_wql_eq_node]⟩⟩
  | neqF n v =>
      exact ⟨fun B E negate => ⟨_, by rw [TagQuery.Neq, encode_query_neq_node]⟩,
        ⟨_, by rw [TagQuery.Neq, to_wql_neq_node]⟩⟩
  | gtF n v =>
      exact ⟨fun B E negate => ⟨_, by rw [TagQuery.Gt, encode_query_gt_node]⟩,
        ⟨_, by rw [TagQuery.Gt, to_wql_gt_node]⟩⟩
  | gteF n v =>
      exact ⟨fun B E negate => ⟨_, by rw [TagQuery.Gte, encode_query_gte_node]⟩,
        ⟨_, by rw [TagQuery.Gte, to_wql_gte_node]⟩⟩
  | ltF n v =>
      exact ⟨fun B E negate => ⟨_, by rw [TagQuery.Lt, encode_query_lt_node]⟩,
        ⟨_, by rw [TagQuery.Lt, to_wql_lt_node]⟩⟩
  | lteF n v =>
      exact ⟨fun B E negate => ⟨_, by rw [TagQuery.Lte, encode_query_lte_node]⟩,
        ⟨_, by rw [TagQuery.Lte, to_wql_lte_node]⟩⟩
  | likeF n v =>
      exact ⟨fun B E negate => ⟨_, by rw [TagQuery.Like, encode_query_like_node]⟩,
        ⟨_, by rw [TagQuery.Like, to_wql_like_node]⟩⟩
  | inF n vs =>
      exact ⟨fun B E negate => ⟨_, by rw [TagQuery.In, encode_query_in_node]⟩,
        ⟨_, by rw [TagQuery.In, to_wql_in_node]⟩⟩
  | existF ns =>
      exact ⟨fun B E negate => ⟨_, by rw [TagQuery.Exist, encode_query_exist_node]⟩,
        ⟨_, by rw [TagQuery.Exist, to_wql_exist_node]⟩⟩
  | andF qs hqs ih =>
      constructor
      · intro B E negate
        obtain ⟨p, hp⟩ := encode_clauses_ok_of_children E qs negate
          (fun q' hq' => (ih q' hq').1 B E negate)
        rw [TagQuery.And, encode_query_and_node, TagQueryEncoder.encode_conj, hp]
        exact ⟨_, rfl⟩
      · by_cases hemp : qs.isEmpty
        · rw [TagQuery.And, to_wql_and_node]
          simp [hemp]
        · obtain ⟨ws, hws⟩ := to_wql_list_ok_of_children qs (fun q' hq' => (ih q' hq').2)
          rw [TagQuery.And, to_wql_and_node]
          simp only [hemp, if_false]
          rw [hws]
          exact ⟨_, rfl⟩
  | orF qs hqs ih =>
      constructor
      · intro B E negate
        obtain ⟨p, hp⟩ := encode_clauses_ok_of_children E qs negate
          (fun q' hq' => (ih q' hq').1 B E negate)
        rw [TagQuery.Or, encode_query_or_node, TagQueryEncoder.encode_conj, hp]
        exact ⟨_, rfl⟩
      · by_cases hemp : qs.isEmpty
        · rw [TagQuery.Or, to_wql_or_node]
          simp [hemp]
        · obtain ⟨ws, hws⟩ := to_wql_list_ok_of_children qs (fun q' hq' => (ih q' hq').2)
          rw [TagQuery.Or, to_wql_or_node]
          simp only [hemp, if_false]
          rw [hws]
          exact ⟨_, rfl⟩
  | notF q hq ih =>
      constructor
      · intro B E negate
        obtain ⟨r, hr⟩ := ih.1 B E (!negate)
        rw [TagQuery.Not, encode_query_not_node, hr]
        exact ⟨_, rfl⟩
      · obtain ⟨w, hw⟩ := ih.2
        rw [TagQuery.Not, to_wql_not_node, hw]
        exact ⟨_, rfl⟩

/-- C8: `encode_query` and `to_wql_dict` raise the unknown-variant fault at a
node whose variant tag lies outside the closed set; when every variant tag is
inside the set the fault is impossible; and trees built via the documented
factories never raise at all. -/
theorem claim_C8_unknown_variant_fault :
    (∀ (B : Type) (E : TagQueryEncoder B) (q : TagQuery) (negate : Bool),
        q.variant ∉ closedVariants →
        E.encode_query q negate = .error (.valueError "Unknown query variant") ∧
        q.to_wql_dict = .error (.valueError ("Unknown query variant: " ++ q.variant))) ∧
    (∀ q : TagQuery, VariantsKnown q →
        (∀ (B : Type) (E : TagQueryEncoder B) (negate : Bool) (m : String),
           E.encode_query q negate ≠ .error (.valueError m)) ∧
        (∀ m, q.to_wql_dict ≠ .error (.valueError m))) ∧
    (∀ q : TagQuery, FactoryBuilt q →
        (∀ (B : Type) (E : TagQueryEncoder B) (negate : Bool),
           ∃ r, E.encode_query q negate = .ok r) ∧
        (∃ w, q.to_wql_dict = .ok w)) := by
  refine ⟨?_, ?_, ?_⟩
  · intro B E q negate h
    exact ⟨encode_query_unknown_variant E q negate h, to_wql_unknown_variant q h⟩
  · exact known_variants_no_value_error
  · exact factory_built_ok

/-- C8 witness: a concrete unknown-variant node faults in both operations,
and a concrete factory-built tree encodes and serializes successfully. -/
theorem claim_C8_witness :
    (sampleEncoder.encode_query (.ofPair "Bogus" ⟨"a"⟩ "1") false =
      .error (.valueError "Unknown query variant")) ∧
    ((TagQuery.ofPair "Bogus" ⟨"a"⟩ "1").to_wql_dict =
      .error (.valueError "Unknown query variant: Bogus")) ∧
    (∃ r, sampleEncoder.encode_query
      (TagQuery.And [TagQuery.Eq ⟨"a"⟩ "1", TagQuery.Not (TagQuery.Exist [⟨"b"⟩])]) false =
        .ok r) ∧
    (∃ w, (TagQuery.And [TagQuery.Eq ⟨"a"⟩ "1",
      TagQuery.Not (TagQuery.Exist [⟨"b"⟩])]).to_wql_dict = .ok w) := by
  have hnotin : (TagQuery.ofPair "Bogus" (⟨"a"⟩ : TagName) "1").variant ∉ closedVariants := by
    decide
  have hfb : FactoryBuilt (TagQuery.And [TagQuery.Eq ⟨"a"⟩ "1",
      TagQuery.Not (TagQuery.Exist [⟨"b"⟩])]) := by
    refine FactoryBuilt.andF _ ?_
    intro q hq
    simp only [List.mem_cons, List.not_mem_nil, or_false] at hq
    rcases hq with rfl | rfl
    · exact FactoryBuilt.eqF _ _
    · exact FactoryBuilt.notF _ (FactoryBuilt.existF _)
  have h1 := claim_C8_unknown_variant_fault.1 String sampleEncoder
    (TagQuery.ofPair "Bogus" ⟨"a"⟩ "1") false hnotin
  have h3 := claim_C8_unknown_variant_fault.2.2 _ hfb
  exact ⟨h1.1, by simpa using h1.2, h3.1 String sampleEncoder false, h3.2⟩

/-- C4 helper: a single-field object whose key does not start with `$`
decodes through the comparison/membership decoder. -/
theorem decodeWql_plain_key (k : String) (v : WqlVal) (h : startsWithDollar k = false) :
    decodeWql (.obj [(k, v)]) = decodeOpObj k v := by
  have hand : k ≠ "$and" := fun hc => by subst hc; exact absurd h (by decide)
  have hor : k ≠ "$or" := fun hc => by subst hc; exact absurd h (by decide)
  have hnot : k ≠ "$not" := fun hc => by subst hc; exact absurd h (by decide)
  have hexist : k ≠ "$exist" := fun hc => by subst hc; exact absurd h (by decide)
  rw [decodeWql.eq_def]
  split <;> simp_all

/-- C4 helper: decoding inverts the string-list serialization. -/
theorem decodeStrings_map_str (ss : List String) :
    decodeStrings (ss.map WqlVal.str) = some ss := by
  induction ss with
  | nil => rfl
  | cons s rest ih => simp [decodeStrings, ih]

/-- C4 helper: the empty serialized list decodes to the empty list. -/
theorem decodeWqlList_nil : decodeWqlList [] = some [] := by
  rw [decodeWqlList]

/-- C4 helper: wrapping the unwrapped tag names restores the originals. -/
theorem map_mk_to_string (ns : List TagName) :
    List.map (TagName.mk ∘ TagName.to_string) ns = ns := by
  induction ns with
  | nil => rfl
  | cons n rest ih =>
      simp only [List.map_cons, ih, Function.comp_apply]
      rfl

/-- C4 helper: element-wise round trip for serialized subquery lists. -/
theorem to_wql_list_roundtrip (qs : List TagQuery)
    (hgood : goodList qs = true)
    (ih : ∀ q ∈ qs, goodQuery q = true →
      ∃ w, q.to_wql_dict = .ok w ∧ decodeWql w = some q) :
    ∃ ws, TagQuery.to_wql_list qs = .ok ws ∧ decodeWqlList ws = some qs := by
  induction qs with
  | nil => exact ⟨[], to_wql_list_nil, decodeWqlList_nil⟩
  | cons q rest ihl =>
      rw [goodList] at hgood
      simp only [Bool.and_eq_true] at hgood
      obtain ⟨w, hw, hd⟩ := ih q (by simp) hgood.1
      obtain ⟨ws, hws, hds⟩ := ihl hgood.2 (fun q' hq' => ih q' (by simp [hq']))
      refine ⟨w :: ws, ?_, ?_⟩
      · rw [to_wql_list_cons, hw, hws]
      · rw [decodeWqlList, hd, hds]
        rfl

/-- C4 helper: on the `goodQuery` fragment, serialization succeeds and the
decoder recovers the exact tree. -/
theorem to_wql_roundtrip : ∀ q : TagQuery, goodQuery q = true →
    ∃ w, q.to_wql_dict = .ok w ∧ decodeWql w = some q := by
  intro q
  induction q using TagQuery.inductionOn with
  | hPair v n s =>
      intro h
      rw [goodQuery] at h
      simp only [Bool.and_eq_true, Bool.or_eq_true, beq_iff_eq, Bool.not_eq_true',
        decide_eq_true_eq] at h
      obtain ⟨hv, hdollar⟩ := h
      rcases hv with (((((rfl | rfl) | rfl) | rfl) | rfl) | rfl) | rfl
      · exact ⟨_, to_wql_eq_node n s,
          by rw [TagName.to_string, decodeWql_plain_key _ _ hdollar]; rfl⟩
      · exact ⟨_, to_wql_neq_node n s,
          by rw [TagName.to_string, decodeWql_plain_key _ _ hdollar]; rfl⟩
      · exact ⟨_, to_wql_gt_node n s,
          by rw [TagName.to_string, decodeWql_plain_key _ _ hdollar]; rfl⟩
      · exact ⟨_, to_wql_gte_node n s,
          by rw [TagName.to_string, decodeWql_plain_key _ _ hdollar]; rfl⟩
      · exact ⟨_, to_wql_lt_node n s,
          by rw [TagName.to_string, decodeWql_plain_key _ _ hdollar]; rfl⟩
      · exact ⟨_, to_wql_lte_node n s,
          by rw [TagName.to_string, decodeWql_plain_key _ _ hdollar]; rfl⟩
      · exact ⟨_, to_wql_like_node n s,
          by rw [TagName.to_string, decodeWql_plain_key _ _ hdollar]; rfl⟩
  | hValues v n vs =>
      intro h
      rw [goodQuery] at h
      simp only [Bool.and_eq_true, beq_iff_eq, Bool.not_eq_true'] at h
      obtain ⟨rfl, hdollar⟩ := h
      refine ⟨_, to_wql_in_node n vs, ?_⟩
      rw [TagName.to_string, decodeWql_plain_key _ _ hdollar]
      simp [decodeOpObj, decodeStrings_map_str]
  | hNames v ns =>
      intro h
      rw [goodQuery] at h
      simp only [beq_iff_eq] at h
      subst h
      refine ⟨_, to_wql_exist_node ns, ?_⟩
      rw [decodeWql]
      have : ns.map (fun n => WqlVal.str n.to_string) =
          (ns.map TagName.to_string).map WqlVal.str := by
        rw [List.map_map]
        rfl
      rw [this, decodeStrings_map_str]
      simp [List.map_map, map_mk_to_string]
  | hSub v q ih =>
      intro h
      rw [goodQuery] at h
      simp only [Bool.and_eq_true, beq_iff_eq] at h
      obtain ⟨rfl, hq⟩ := h
      obtain ⟨w, hw, hd⟩ := ih hq
      refine ⟨.obj [("$not", w)], ?_, ?_⟩
      · rw [to_wql_not_node, hw]
      · rw [decodeWql, hd]
        rfl
  | hSubs v qs ih =>
      intro h
      rw [goodQuery] at h
      simp only [Bool.and_eq_true, Bool.or_eq_true, beq_iff_eq, Bool.not_eq_true'] at h
      obtain ⟨⟨hv, hne⟩, hgl⟩ := h
      obtain ⟨ws, hws, hds⟩ := to_wql_list_roundtrip qs hgl ih
      rcases hv with rfl | rfl
      · refine ⟨.obj [("$and", .arr ws)], ?_, ?_⟩
        · rw [to_wql_and_node, hne, hws]
          simp
        · rw [decodeWql, hds]
          rfl
      · refine ⟨.obj [("$or", .arr ws)], ?_, ?_⟩
        · rw [to_wql_or_node, hne, hws]
          simp
        · rw [decodeWql, hds]
          rfl

/-- C4 counterexample: the canonical serialization is not one-to-one on
factory-built trees: `And([])` and `Or([])` are distinct trees that both
serialize to the empty mapping, and `Not(Eq(TagName("$neq"), "1"))` and
`Neq(TagName("$not"), "1")` are distinct trees with identical mappings. -/
theorem claim_C4_counterexample :
    ((TagQuery.And []).to_wql_dict = .ok (.obj []) ∧
     (TagQuery.Or []).to_wql_dict = .ok (.obj []) ∧
     TagQuery.And [] ≠ TagQuery.Or []) ∧
    ((TagQuery.Not (TagQuery.Eq ⟨"$neq"⟩ "1")).to_wql_dict =
       .ok (.obj [("$not", .obj [("$neq", .str "1")])]) ∧
     (TagQuery.Neq ⟨"$not"⟩ "1").to_wql_dict =
       .ok (.obj [("$not", .obj [("$neq", .str "1")])]) ∧
     TagQuery.Not (TagQuery.Eq ⟨"$neq"⟩ "1") ≠ TagQuery.Neq ⟨"$not"⟩ "1") := by
  refine ⟨⟨?_, ?_, ?_⟩, ⟨?_, ?_, ?_⟩⟩
  · rw [TagQuery.And, to_wql_and_node]
    simp
  · rw [TagQuery.Or, to_wql_or_node]
    simp
  · simp [TagQuery.And, TagQuery.Or]
  · rw [TagQuery.Not, TagQuery.Eq, to_wql_not_node, to_wql_eq_node]
    rfl
  · rw [TagQuery.Neq, to_wql_neq_node]
    rfl
  · simp [TagQuery.Not, TagQuery.Eq, TagQuery.Neq]

/-- C4 amended: `to_wql_dict` is injective on factory-shaped trees whose
And/Or nodes are non-empty and whose tag names do not start with the
reserved `$` marker: two such trees with equal canonical mappings are
equal. -/
theorem claim_C4_amended_injectivity :
    ∀ q1 q2 : TagQuery, goodQuery q1 = true → goodQuery q2 = true →
      q1.to_wql_dict = q2.to_wql_dict → q1 = q2 := by
  intro q1 q2 h1 h2 heq
  obtain ⟨w1, hw1, hd1⟩ := to_wql_roundtrip q1 h1
  obtain ⟨w2, hw2, hd2⟩ := to_wql_roundtrip q2 h2
  rw [hw1, hw2] at heq
  injection heq with h
  subst h
  have := hd1.symm.trans hd2
  injection this

/-- C4 witness: the amended injectivity applied at a concrete good tree. -/
theorem claim_C4_witness :
    goodQuery (TagQuery.And [TagQuery.Eq ⟨"a"⟩ "1"]) = true ∧
    TagQuery.And [TagQuery.Eq ⟨"a"⟩ "1"] = TagQuery.And [TagQuery.Eq ⟨"a"⟩ "1"] := by
  have hg : goodQuery (TagQuery.And [TagQuery.Eq ⟨"a"⟩ "1"]) = true := by
    simp [goodQuery, goodList, TagQuery.And, TagQuery.Eq, startsWithDollar]
  exact ⟨hg, claim_C4_amended_injectivity _ _ hg hg rfl⟩
